import Mathlib

/-!
Verification development for the listing decision engine:
the keyword rule evaluator (`src/keyword_rule_engine.py`),
the task domain models (`src/domain/models/task.py`),
and the AI runtime resolver (`src/config.py`).

Python `str` values are modelled as `List Char` (the type `Str` below);
Python substring tests (`kw in text`) are modelled by `List.IsInfix`
(`kw <:+: text`), which is decidable, hence executable.
-/

abbrev Str := List Char

/-- Coerce a Lean string literal to the `Str` model. -/
def sl (x : String) : Str := x.data

/-- Python `str.lower()` (modelled at ASCII granularity, as `Char.toLower`). -/
def lowerStr (t : Str) : Str := t.map Char.toLower

/-- Python `str.strip()`: drop whitespace from both ends. -/
def strip (t : Str) : Str :=
  ((t.dropWhile Char.isWhitespace).reverse.dropWhile Char.isWhitespace).reverse

/-- Accumulator-based worker for Python `str.split()` (split on whitespace
runs, dropping empty pieces).  `acc` holds the current word reversed. -/
def wordsAux : Str → Str → List Str
  | [], acc => if acc = [] then [] else [acc.reverse]
  | c :: cs, acc =>
    if c.isWhitespace then
      if acc = [] then wordsAux cs [] else acc.reverse :: wordsAux cs []
    else wordsAux cs (c :: acc)

/-- Python `str.split()` with no separator argument. -/
def words (t : Str) : List Str := wordsAux t []

/-- Python `sep.join(parts)`. -/
def joinSep (sep : Str) : List Str → Str
  | [] => []
  | [x] => x
  | x :: y :: xs => x ++ sep ++ joinSep sep (y :: xs)

/-- `normalize_text` from `src/keyword_rule_engine.py`:
`" ".join((value or "").lower().split())`. -/
def normalize_text (value : Str) : Str :=
  joinSep (sl " ") (words (lowerStr value))

/-- Python `needle in haystack` on strings (contiguous substring test). -/
def pyInStr (needle haystack : Str) : Bool := decide (needle <:+: haystack)

/-! ## Keyword rule engine (`src/keyword_rule_engine.py`) -/

/-- A Python value as it occurs in listing records: `None`, strings,
ints, floats (carried by their decimal `str` form), bools, dicts and lists. -/
inductive PyVal where
  | vnone : PyVal
  | vstr : Str → PyVal
  | vint : Int → PyVal
  | vfloat : Str → PyVal
  | vbool : Bool → PyVal
  | vdict : List (Str × PyVal) → PyVal
  | vlist : List PyVal → PyVal
deriving Repr

/-- Python `str(value)` for the scalar leaves handled by the collector. -/
def pyScalarStr : PyVal → Str
  | .vint n => (Int.repr n).data
  | .vfloat r => r
  | .vbool b => if b then sl "True" else sl "False"
  | _ => []

/-- Python `dict.get(key, default)` over an association list. -/
def dictGetD (entries : List (Str × PyVal)) (key : Str) (dflt : PyVal) : PyVal :=
  match entries.find? (fun e => e.1 = key) with
  | some e => e.2
  | none => dflt

mutual
/-- `_collect_text_fragments` from `src/keyword_rule_engine.py`:
append every string/number/bool leaf (strings stripped, blanks skipped)
to `bucket`, recursing through dicts (over values) and lists. -/
def collect_text_fragments : PyVal → List Str → List Str
  | .vnone, bucket => bucket
  | .vstr v, bucket =>
    let text := strip v
    if text = [] then bucket else bucket ++ [text]
  | .vint n, bucket => bucket ++ [pyScalarStr (.vint n)]
  | .vfloat r, bucket => bucket ++ [pyScalarStr (.vfloat r)]
  | .vbool b, bucket => bucket ++ [pyScalarStr (.vbool b)]
  | .vdict es, bucket => collectDictValues es bucket
  | .vlist items, bucket => collectListItems items bucket

/-- The `for item in value.values()` loop of `_collect_text_fragments`. -/
def collectDictValues : List (Str × PyVal) → List Str → List Str
  | [], bucket => bucket
  | e :: rest, bucket => collectDictValues rest (collect_text_fragments e.2 bucket)

/-- The `for item in value` loop of `_collect_text_fragments`. -/
def collectListItems : List PyVal → List Str → List Str
  | [], bucket => bucket
  | v :: rest, bucket => collectListItems rest (collect_text_fragments v bucket)
end

/-- `build_search_text` from `src/keyword_rule_engine.py`.  The call
`product_info.get("商品标题")` raises `AttributeError` when the value under
`"商品信息"` is not a mapping; this fallible step is modelled by `Option`
(`none` = the Python call raises). -/
def build_search_text (record : List (Str × PyVal)) : Option Str :=
  let product_info := dictGetD record (sl "商品信息") (.vdict [])
  let seller_info := dictGetD record (sl "卖家信息") (.vdict [])
  match product_info with
  | .vdict pes =>
    let fragments := collect_text_fragments (dictGetD pes (sl "商品标题") .vnone) []
    let fragments := collect_text_fragments (.vdict pes) fragments
    let fragments := collect_text_fragments seller_info fragments
    some (normalize_text (joinSep (sl " ") fragments))
  | _ => none

/-- `_normalize_keywords` from `src/keyword_rule_engine.py`: strip, normalize,
drop blanks, deduplicate keeping first occurrences. -/
def normalize_keywords : List Str → List Str → List Str
  | [], _ => []
  | raw :: rest, seen =>
    let text := normalize_text (strip raw)
    if text = [] ∨ text ∈ seen then normalize_keywords rest seen
    else text :: normalize_keywords rest (text :: seen)

/-- A rule group as received by the engine (already uniform: the Python
code accepts dicts or objects and reads the same three fields of both). -/
structure RawGroup where
  name : Option Str
  include_keywords : List Str
  exclude_keywords : List Str

/-- The normalized fields produced by `_extract_group_fields`. -/
structure GroupFields where
  name : Str
  include_keywords : List Str
  exclude_keywords : List Str

/-- `_extract_group_fields` from `src/keyword_rule_engine.py`.
`group_name = str(name).strip() if name else fallback_name`: a missing or
empty name falls back, a non-empty name is stripped. -/
def extract_group_fields (group : RawGroup) (fallback_name : Str) : GroupFields :=
  { name :=
      match group.name with
      | none => fallback_name
      | some n => if n = [] then fallback_name else strip n
    include_keywords := normalize_keywords group.include_keywords []
    exclude_keywords := normalize_keywords group.exclude_keywords [] }

/-- The verdict dictionary returned by `evaluate_keyword_rules`. -/
structure Verdict where
  analysis_source : Str
  is_recommended : Bool
  reason : Str
  matched_groups : List Str
  matched_keywords : List Str
  blocked_keywords : List Str
deriving Repr, DecidableEq

/-- Python `f"规则组{index}"`. -/
def fallbackGroupName (index : Nat) : Str := sl "规则组" ++ (Nat.repr index).data

/-- The verdict returned when the normalized search text is empty. -/
def noTextVerdict : Verdict :=
  { analysis_source := sl "keyword", is_recommended := false
    reason := sl "可匹配文本为空，关键词规则无法执行。"
    matched_groups := [], matched_keywords := [], blocked_keywords := [] }

/-- The verdict returned when no groups are configured. -/
def noGroupsVerdict : Verdict :=
  { analysis_source := sl "keyword", is_recommended := false
    reason := sl "未配置关键词规则分组。"
    matched_groups := [], matched_keywords := [], blocked_keywords := [] }

/-- The success verdict built at the `return` inside the group loop. -/
def successVerdict (gf : GroupFields) : Verdict :=
  { analysis_source := sl "keyword", is_recommended := true
    reason := sl "命中关键词规则：" ++ gf.name ++ sl "（包含词全部满足，且未触发排除词）。"
    matched_groups := [gf.name], matched_keywords := gf.include_keywords
    blocked_keywords := [] }

/-- The verdict built after the loop when no group matched. -/
def noMatchVerdict (group_fail_reasons : List Str) : Verdict :=
  { analysis_source := sl "keyword", is_recommended := false
    reason :=
      if group_fail_reasons = [] then sl "所有关键词规则组均未命中。"
      else joinSep (sl "；") (group_fail_reasons.take 3)
    matched_groups := [], matched_keywords := [], blocked_keywords := [] }

/-- The failure reason recorded for one group (`"缺少 …"` / `"命中排除词 …"`). -/
def groupFailDetail (gf : GroupFields) (missing blocked : List Str) : Str :=
  gf.name ++ sl ": " ++
    joinSep (sl "; ")
      ((if missing ≠ [] then [sl "缺少 " ++ joinSep (sl ", ") missing] else []) ++
       (if blocked ≠ [] then [sl "命中排除词 " ++ joinSep (sl ", ") blocked] else []))

/-- The `for index, raw_group in enumerate(groups, start=1)` loop of
`evaluate_keyword_rules`, carrying the accumulated failure reasons. -/
def evalGroupsLoop (normalized_text : Str) :
    List RawGroup → Nat → List Str → Verdict
  | [], _, group_fail_reasons => noMatchVerdict group_fail_reasons
  | raw_group :: rest, index, group_fail_reasons =>
    let group := extract_group_fields raw_group (fallbackGroupName index)
    if group.include_keywords = [] then
      evalGroupsLoop normalized_text rest (index + 1)
        (group_fail_reasons ++ [group.name ++ sl ": 缺少包含关键词"])
    else
      let missing := group.include_keywords.filter
        (fun kw => ! pyInStr kw normalized_text)
      let blocked := group.exclude_keywords.filter
        (fun kw => pyInStr kw normalized_text)
      if missing = [] ∧ blocked = [] then successVerdict group
      else
        evalGroupsLoop normalized_text rest (index + 1)
          (group_fail_reasons ++ [groupFailDetail group missing blocked])

/-- `evaluate_keyword_rules` from `src/keyword_rule_engine.py`. -/
def evaluate_keyword_rules (groups : List RawGroup) (search_text : Str) : Verdict :=
  let normalized_text := normalize_text search_text
  if normalized_text = [] then noTextVerdict
  else if groups.isEmpty then noGroupsVerdict
  else evalGroupsLoop normalized_text groups 1 []

/-- Whether one group matches a (normalized) text: the group is reached with
non-empty normalized include keywords, every include keyword occurs in the
text, and no exclude keyword does (lines 103–116 of the engine). -/
def group_matches (group : RawGroup) (normalized_text : Str) : Bool :=
  let inc := normalize_keywords group.include_keywords []
  let exc := normalize_keywords group.exclude_keywords []
  decide (inc ≠ []) &&
    decide (inc.filter (fun kw => ! pyInStr kw normalized_text) = []) &&
    decide (exc.filter (fun kw => pyInStr kw normalized_text) = [])

/-- The failure reasons the loop accumulates when no group matches
(one entry per non-matching group, in order). -/
def groupFailReasons (normalized_text : Str) :
    List RawGroup → Nat → List Str
  | [], _ => []
  | raw_group :: rest, index =>
    let group := extract_group_fields raw_group (fallbackGroupName index)
    if group.include_keywords = [] then
      (group.name ++ sl ": 缺少包含关键词") ::
        groupFailReasons normalized_text rest (index + 1)
    else
      let missing := group.include_keywords.filter
        (fun kw => ! pyInStr kw normalized_text)
      let blocked := group.exclude_keywords.filter
        (fun kw => pyInStr kw normalized_text)
      if missing = [] ∧ blocked = [] then
        groupFailReasons normalized_text rest (index + 1)
      else
        groupFailDetail group missing blocked ::
          groupFailReasons normalized_text rest (index + 1)

/-- A text with no leading/trailing whitespace and no run of two or more
whitespace characters. -/
def IsCollapsed (l : Str) : Prop :=
  (∀ c ∈ l.head?, c.isWhitespace = false) ∧
  (∀ c ∈ l.getLast?, c.isWhitespace = false) ∧
  l.Chain' (fun a b => a.isWhitespace = false ∨ b.isWhitespace = false)

/-! ## AI runtime resolver (`src/config.py`) -/

/-- Python truthiness of an `Optional[str]`. -/
def truthyOptStr : Option Str → Bool
  | none => false
  | some t => t ≠ []

/-- Python `a or b` on `Optional[str]` values. -/
def pyOrOpt (a b : Option Str) : Option Str := if truthyOptStr a then a else b

/-- Python `source.get(k) or ""`. -/
def pyOrEmpty (a : Option Str) : Str := if truthyOptStr a then a.getD [] else []

def GEMINI_OPENAI_COMPAT_BASE_URL : Str :=
  sl "https://generativelanguage.googleapis.com/v1beta/openai/"

def GEMINI_DEFAULT_MODEL_NAME : Str := sl "gemini-2.0-flash"

/-- The dict returned by `resolve_ai_runtime_config`.  `api_key` keeps the
Python `Optional[str]` type: `openai_api_key or gemini_api_key` can be `None`. -/
structure AIRuntimeConfig where
  api_key : Option Str
  base_url : Str
  model_name : Str
  is_gemini_openai_compat : Bool
deriving Repr, DecidableEq

/-- `resolve_ai_runtime_config` from `src/config.py`; the environment is the
mapping `source`, with `source k = none` meaning the variable is unset. -/
def resolve_ai_runtime_config (source : Str → Option Str) : AIRuntimeConfig :=
  let openai_api_key := source (sl "OPENAI_API_KEY")
  let gemini_api_key := source (sl "GEMINI_API_KEY")
  let base_url := pyOrEmpty (source (sl "OPENAI_BASE_URL"))
  let model_name := pyOrEmpty (source (sl "OPENAI_MODEL_NAME"))
  let use_gemini_defaults := truthyOptStr gemini_api_key && ! truthyOptStr openai_api_key
  let resolved_base_url :=
    if base_url ≠ [] then base_url
    else if use_gemini_defaults then GEMINI_OPENAI_COMPAT_BASE_URL else []
  let resolved_model_name :=
    if model_name ≠ [] then model_name
    else if use_gemini_defaults then GEMINI_DEFAULT_MODEL_NAME else []
  { api_key := pyOrOpt openai_api_key gemini_api_key
    base_url := resolved_base_url
    model_name := resolved_model_name
    is_gemini_openai_compat := use_gemini_defaults }

/-! ## Task domain models (`src/domain/models/task.py`)

The namespace `Models` avoids a name clash between the `Task` entity and
Lean's builtin `Task` type. -/

namespace Models

/-- `_normalize_keyword_values`: split a raw delimited string on
newlines/commas (or accept a sequence), strip entries, drop blanks,
deduplicate case-insensitively keeping first occurrences.  The splitting of
a single string input is modelled by passing the already-split pieces. -/
def normalize_keyword_values (raw_values : List Str) (seen : List Str) : List Str :=
  match raw_values with
  | [] => []
  | item :: rest =>
    let text := strip item
    if text = [] then normalize_keyword_values rest seen
    else
      let dedup_key := lowerStr text
      if dedup_key ∈ seen then normalize_keyword_values rest seen
      else text :: normalize_keyword_values rest (dedup_key :: seen)

/-- `KeywordRuleGroup` (pydantic model), after its field validators ran. -/
structure KeywordRuleGroup where
  name : Option Str
  include_keywords : List Str
  exclude_keywords : List Str
deriving Repr, DecidableEq

/-- The `normalize_name` / `normalize_keyword_list` validators of
`KeywordRuleGroup` applied to raw field values. -/
def KeywordRuleGroup.parse (name : Option Str)
    (include_raw exclude_raw : List Str) : KeywordRuleGroup :=
  { name :=
      match name with
      | none => none
      | some v => let text := strip v; if text = [] then none else some text
    include_keywords := normalize_keyword_values include_raw []
    exclude_keywords := normalize_keyword_values exclude_raw [] }

/-- `_has_valid_keyword_groups` from `src/domain/models/task.py`. -/
def has_valid_keyword_groups (groups : List KeywordRuleGroup) : Bool :=
  groups.any (fun group => group.include_keywords ≠ [])

inductive DecisionMode where
  | ai : DecisionMode
  | keyword : DecisionMode
deriving Repr, DecidableEq

/-- The `Task` entity.  `max_pages` is a Python `int`. -/
structure Task where
  id : Option Int
  task_name : Str
  enabled : Bool
  keyword : Str
  description : Option Str
  max_pages : Int
  personal_only : Bool
  min_price : Option Str
  max_price : Option Str
  cron : Option Str
  ai_prompt_base_file : Str
  ai_prompt_criteria_file : Str
  account_state_file : Option Str
  free_shipping : Bool
  new_publish_option : Option Str
  region : Option Str
  decision_mode : DecisionMode
  keyword_rule_groups : List KeywordRuleGroup
  is_running : Bool
deriving Repr, DecidableEq

/-- `Task.can_start`. -/
def Task.can_start (t : Task) : Bool := t.enabled && ! t.is_running

/-- `Task.can_stop`. -/
def Task.can_stop (t : Task) : Bool := t.is_running

/-- The `Task` class defines no validators, so constructing a `Task` from
field values never fails; it is the plain (always-`ok`) construction. -/
def Task.construct (t : Task) : Except Str Task := Except.ok t

/-- `TaskCreate` (creation DTO), after field validators ran. -/
structure TaskCreate where
  task_name : Str
  enabled : Bool
  keyword : Str
  description : Option Str
  max_pages : Int
  personal_only : Bool
  min_price : Option Str
  max_price : Option Str
  cron : Option Str
  ai_prompt_base_file : Str
  ai_prompt_criteria_file : Str
  account_state_file : Option Str
  free_shipping : Bool
  new_publish_option : Option Str
  region : Option Str
  decision_mode : DecisionMode
  keyword_rule_groups : List KeywordRuleGroup
deriving Repr, DecidableEq

def msgAIDescription : Str := sl "AI 判断模式下，详细需求(description)不能为空。"

def msgKeywordGroups : Str := sl "关键词判断模式下，至少需要一个包含关键词。"

/-- The `validate_decision_mode_payload` root validator of `TaskCreate`
(and, identically, of `TaskGenerateRequest`): in `ai` mode the stripped
description must be non-empty, in `keyword` mode some group must have
include keywords.  `Except.error` models the raised `ValueError`. -/
def TaskCreate.validate_decision_mode_payload (c : TaskCreate) :
    Except Str TaskCreate :=
  let mode := c.decision_mode
  let description := strip (c.description.getD [])
  let keyword_groups := c.keyword_rule_groups
  if mode = .ai ∧ description = [] then Except.error msgAIDescription
  else if mode = .keyword ∧ ¬ has_valid_keyword_groups keyword_groups then
    Except.error msgKeywordGroups
  else Except.ok c

/-- Constructing a `TaskCreate`: pydantic runs the field validators (already
reflected in the field types) and then the root validator. -/
def TaskCreate.construct (c : TaskCreate) : Except Str TaskCreate :=
  c.validate_decision_mode_payload

/-- `TaskUpdate` (partial-update DTO): a `none` field was not supplied.
For fields that are `Optional` on `Task` itself the value type is again an
`Option` (`some none` = explicitly supplied `None`). -/
structure TaskUpdate where
  task_name : Option Str
  enabled : Option Bool
  keyword : Option Str
  description : Option (Option Str)
  max_pages : Option Int
  personal_only : Option Bool
  min_price : Option (Option Str)
  max_price : Option (Option Str)
  cron : Option (Option Str)
  ai_prompt_base_file : Option Str
  ai_prompt_criteria_file : Option Str
  account_state_file : Option (Option Str)
  free_shipping : Option Bool
  new_publish_option : Option (Option Str)
  region : Option (Option Str)
  decision_mode : Option DecisionMode
  keyword_rule_groups : Option (List KeywordRuleGroup)
  is_running : Option Bool
deriving Repr, DecidableEq

/-- The all-unset update (every field defaulted to `None`). -/
def TaskUpdate.unset : TaskUpdate :=
  { task_name := none, enabled := none, keyword := none, description := none
    max_pages := none, personal_only := none, min_price := none
    max_price := none, cron := none, ai_prompt_base_file := none
    ai_prompt_criteria_file := none, account_state_file := none
    free_shipping := none, new_publish_option := none, region := none
    decision_mode := none, keyword_rule_groups := none, is_running := none }

/-- The `validate_partial_keyword_payload` root validator of `TaskUpdate`:
`values.get("description")` sees `None` both for an unsupplied field and an
explicit `None`, hence the `Option.join`. -/
def TaskUpdate.validate_partial_keyword_payload (u : TaskUpdate) :
    Except Str TaskUpdate :=
  let mode := u.decision_mode
  let groups := u.keyword_rule_groups
  let description := u.description.join
  if mode = some .keyword ∧ groups ≠ none ∧
      ¬ has_valid_keyword_groups (groups.getD []) then
    Except.error msgKeywordGroups
  else if mode = some .ai ∧ description ≠ none ∧
      strip (description.getD []) = [] then
    Except.error msgAIDescription
  else Except.ok u

/-- `Task.apply_update`: `self.copy(update=update.dict(exclude_unset=True))` —
every supplied field of the update overwrites the task's field, every
unsupplied field is kept (`id` has no update field and is always kept). -/
def Task.apply_update (t : Task) (update : TaskUpdate) : Task :=
  { id := t.id
    task_name := update.task_name.getD t.task_name
    enabled := update.enabled.getD t.enabled
    keyword := update.keyword.getD t.keyword
    description := update.description.getD t.description
    max_pages := update.max_pages.getD t.max_pages
    personal_only := update.personal_only.getD t.personal_only
    min_price := update.min_price.getD t.min_price
    max_price := update.max_price.getD t.max_price
    cron := update.cron.getD t.cron
    ai_prompt_base_file := update.ai_prompt_base_file.getD t.ai_prompt_base_file
    ai_prompt_criteria_file :=
      update.ai_prompt_criteria_file.getD t.ai_prompt_criteria_file
    account_state_file := update.account_state_file.getD t.account_state_file
    free_shipping := update.free_shipping.getD t.free_shipping
    new_publish_option := update.new_publish_option.getD t.new_publish_option
    region := update.region.getD t.region
    decision_mode := update.decision_mode.getD t.decision_mode
    keyword_rule_groups := update.keyword_rule_groups.getD t.keyword_rule_groups
    is_running := update.is_running.getD t.is_running }

/-- A Python value arriving in the `min_price`/`max_price` fields:
`None`, a string, an `int`, or a `float` (carried by its decimal `str`
form, since binary floating point is not modelled). -/
inductive PriceInput where
  | pnone : PriceInput
  | pstr : Str → PriceInput
  | pint : Int → PriceInput
  | pfloat : Str → PriceInput
deriving Repr, DecidableEq

/-- The `convert_price_to_str` field validator shared by `TaskCreate`,
`TaskUpdate` and `TaskGenerateRequest`: `""`/`"null"`/`"undefined"`/`None`
become `None`, numbers become `str(v)`, other strings pass through. -/
def convert_price_to_str : PriceInput → Option Str
  | .pnone => none
  | .pstr v =>
    if v = sl "" ∨ v = sl "null" ∨ v = sl "undefined" then none else some v
  | .pint n => some (Int.repr n).data
  | .pfloat r => some r

/-- Re-inject the validator's output as a new input (what pydantic would
hand the validator on revalidation). -/
def priceOutputAsInput : Option Str → PriceInput
  | none => .pnone
  | some v => .pstr v

/-- A concrete `Task` value in AI mode with a blank description (the `Task`
class has no validators, so it is constructible). -/
def sampleBlankAITask : Task :=
  { id := none, task_name := sl "监控任务", enabled := true, keyword := sl "相机"
    description := some (sl ""), max_pages := 3, personal_only := true
    min_price := none, max_price := none, cron := none
    ai_prompt_base_file := sl "prompts/base_prompt.txt"
    ai_prompt_criteria_file := sl "prompts/criteria.txt"
    account_state_file := none, free_shipping := true
    new_publish_option := none, region := none, decision_mode := .ai
    keyword_rule_groups := [], is_running := false }

/-- The `TaskCreate` payload with the same decision-mode fields as
`sampleBlankAITask`. -/
def sampleBlankAICreate : TaskCreate :=
  { task_name := sl "监控任务", enabled := true, keyword := sl "相机"
    description := some (sl ""), max_pages := 3, personal_only := true
    min_price := none, max_price := none, cron := none
    ai_prompt_base_file := sl "prompts/base_prompt.txt"
    ai_prompt_criteria_file := sl "prompts/criteria.txt"
    account_state_file := none, free_shipping := true
    new_publish_option := none, region := none, decision_mode := .ai
    keyword_rule_groups := [] }

/-- A fully consistent AI-mode task (non-blank description). -/
def sampleValidAITask : Task :=
  { sampleBlankAITask with description := some (sl "需要全画幅相机，成色好。") }

/-- A partial update that only clears the rule groups. -/
def clearGroupsUpdate : TaskUpdate :=
  { TaskUpdate.unset with keyword_rule_groups := some [] }

/-- A partial update that only switches the decision mode to keyword. -/
def keywordModeUpdate : TaskUpdate :=
  { TaskUpdate.unset with decision_mode := some .keyword }

end Models

/-! ## Character and word-splitting lemmas -/

theorem ws_toLower_self (c : Char) (h : c.isWhitespace = true) : c.toLower = c := by
  simp only [Char.isWhitespace, Bool.or_eq_true, decide_eq_true_eq] at h
  rcases h with ((h | h) | h) | h <;> subst h <;> decide

theorem toNat_ofNat_valid (n : Nat) (h : n < 55296) : (Char.ofNat n).toNat = n := by
  rw [Char.ofNat, dif_pos (Or.inl h)]
  rfl

theorem toLower_toLower (c : Char) : c.toLower.toLower = c.toLower := by
  unfold Char.toLower
  by_cases h : c.toNat ≥ 65 ∧ c.toNat ≤ 90
  · rw [if_pos h]
    have hv : (Char.ofNat (c.toNat + 32)).toNat = c.toNat + 32 :=
      toNat_ofNat_valid _ (by omega)
    rw [if_neg (by omega)]
  · rw [if_neg h, if_neg h]

theorem lowerStr_all_ws (l : Str) (h : ∀ ch ∈ l, ch.isWhitespace = true) :
    lowerStr l = l := by
  induction l with
  | nil => rfl
  | cons c cs ih =>
    simp only [lowerStr, List.map_cons]
    rw [ws_toLower_self c (h c (List.mem_cons_self c cs))]
    have := ih (fun ch hch => h ch (List.mem_cons_of_mem c hch))
    simpa [lowerStr] using this

theorem wordsAux_nil (acc : Str) :
    wordsAux [] acc = if acc = [] then [] else [acc.reverse] := rfl

theorem wordsAux_ws_split (c : Char) (hc : c.isWhitespace = true) :
    ∀ (a b acc : Str),
      wordsAux (a ++ c :: b) acc = wordsAux a acc ++ wordsAux b [] := by
  intro a
  induction a with
  | nil =>
    intro b acc
    simp only [List.nil_append, wordsAux, hc, if_true, wordsAux_nil]
    by_cases h : acc = [] <;> simp [h]
  | cons d a ih =>
    intro b acc
    by_cases hd : d.isWhitespace
    · simp only [List.cons_append, wordsAux, hd, if_true]
      by_cases h : acc = [] <;> simp [h, ih]
    · simp only [List.cons_append, wordsAux, hd, if_false, Bool.false_eq_true]
      exact ih b (d :: acc)

theorem words_ws_split (c : Char) (hc : c.isWhitespace = true) (a b : Str) :
    words (a ++ c :: b) = words a ++ words b :=
  wordsAux_ws_split c hc a b []

theorem wordsAux_all_ws (l : Str) (h : ∀ ch ∈ l, ch.isWhitespace = true) :
    ∀ acc, wordsAux l acc = wordsAux [] acc := by
  induction l with
  | nil => intro acc; rfl
  | cons c cs ih =>
    intro acc
    have hc : c.isWhitespace = true := h c (List.mem_cons_self c cs)
    have ihcs := ih (fun ch hch => h ch (List.mem_cons_of_mem c hch))
    simp only [wordsAux, hc, if_true]
    by_cases hacc : acc = []
    · simp [hacc, ihcs, wordsAux_nil]
    · simp [hacc, ihcs, wordsAux_nil]

theorem wordsAux_append_all_ws (suf : Str)
    (h : ∀ ch ∈ suf, ch.isWhitespace = true) :
    ∀ (l acc : Str), wordsAux (l ++ suf) acc = wordsAux l acc := by
  intro l
  induction l with
  | nil =>
    intro acc
    simpa using wordsAux_all_ws suf h acc
  | cons c cs ih =>
    intro acc
    by_cases hc : c.isWhitespace
    · simp only [List.cons_append, wordsAux, hc, if_true]
      by_cases hacc : acc = [] <;> simp [hacc, ih]
    · simp only [List.cons_append, wordsAux, hc, if_false, Bool.false_eq_true]
      exact ih (c :: acc)

theorem words_append_all_ws (l suf : Str)
    (h : ∀ ch ∈ suf, ch.isWhitespace = true) :
    words (l ++ suf) = words l :=
  wordsAux_append_all_ws suf h l []

theorem words_lower_dropWhile (t : Str) :
    words (lowerStr (t.dropWhile Char.isWhitespace)) = words (lowerStr t) := by
  induction t with
  | nil => rfl
  | cons c cs ih =>
    by_cases hc : c.isWhitespace
    · rw [List.dropWhile_cons_of_pos (by simpa using hc), ih]
      simp only [lowerStr, List.map_cons, ws_toLower_self c hc]
      show words (lowerStr cs) = wordsAux (c :: lowerStr cs) []
      simp [wordsAux, hc, words]
    · rw [List.dropWhile_cons_of_neg (by simpa using hc)]

theorem normalize_text_strip (t : Str) :
    normalize_text (strip t) = normalize_text t := by
  have key : words (lowerStr (strip t)) = words (lowerStr t) := by
    set A := t.dropWhile Char.isWhitespace with hA
    have hsplit : strip t ++ (A.reverse.takeWhile Char.isWhitespace).reverse = A := by
      have h0 : strip t = (A.reverse.dropWhile Char.isWhitespace).reverse := by
        simp [strip, hA]
      rw [h0, ← List.reverse_append, List.takeWhile_append_dropWhile,
        List.reverse_reverse]
    have hsuf : ∀ ch ∈ (A.reverse.takeWhile Char.isWhitespace).reverse,
        ch.isWhitespace = true := by
      intro ch hch
      rw [List.mem_reverse] at hch
      exact List.mem_takeWhile_imp hch
    have h1 : words (lowerStr A) = words (lowerStr (strip t)) := by
      rw [← hsplit, lowerStr, List.map_append]
      exact words_append_all_ws _ _ (by
        intro ch hch
        simp only [List.mem_map] at hch
        obtain ⟨d, hd, rfl⟩ := hch
        rw [ws_toLower_self d (hsuf d hd)]
        exact hsuf d hd)
    rw [← h1, hA, words_lower_dropWhile]
  simp [normalize_text, key]

theorem mem_wordsAux_ne_nil :
    ∀ (l acc : Str) (w : Str), w ∈ wordsAux l acc → w ≠ [] := by
  intro l
  induction l with
  | nil =>
    intro acc w hw
    rw [wordsAux_nil] at hw
    by_cases hacc : acc = []
    · simp [hacc] at hw
    · simp only [hacc, if_false] at hw
      rw [List.mem_singleton] at hw
      subst hw
      simpa using hacc
  | cons c cs ih =>
    intro acc w hw
    by_cases hc : c.isWhitespace
    · simp only [wordsAux, hc, if_true] at hw
      by_cases hacc : acc = []
      · exact ih [] w (by simpa [hacc] using hw)
      · simp only [hacc, if_false, List.mem_cons] at hw
        rcases hw with hw | hw
        · subst hw; simpa using hacc
        · exact ih [] w hw
    · simp only [wordsAux, hc, if_false, Bool.false_eq_true] at hw
      exact ih (c :: acc) w hw

theorem mem_wordsAux_chars :
    ∀ (l acc : Str) (w : Str), w ∈ wordsAux l acc →
      ∀ ch ∈ w, ch ∈ l ∨ ch ∈ acc := by
  intro l
  induction l with
  | nil =>
    intro acc w hw ch hch
    rw [wordsAux_nil] at hw
    by_cases hacc : acc = []
    · simp [hacc] at hw
    · simp only [hacc, if_false, List.mem_singleton] at hw
      subst hw
      exact Or.inr (List.mem_reverse.mp hch)
  | cons c cs ih =>
    intro acc w hw ch hch
    by_cases hc : c.isWhitespace
    · simp only [wordsAux, hc, if_true] at hw
      by_cases hacc : acc = []
      · rcases ih [] w (by simpa [hacc] using hw) ch hch with h | h
        · exact Or.inl (List.mem_cons_of_mem c h)
        · simp at h
      · simp only [hacc, if_false, List.mem_cons] at hw
        rcases hw with hw | hw
        · subst hw
          exact Or.inr (List.mem_reverse.mp hch)
        · rcases ih [] w hw ch hch with h | h
          · exact Or.inl (List.mem_cons_of_mem c h)
          · simp at h
    · simp only [wordsAux, hc, if_false, Bool.false_eq_true] at hw
      rcases ih (c :: acc) w hw ch hch with h | h
      · exact Or.inl (List.mem_cons_of_mem c h)
      · rcases List.mem_cons.mp h with h | h
        · exact Or.inl (h ▸ List.mem_cons_self c cs)
        · exact Or.inr h

theorem mem_wordsAux_not_ws :
    ∀ (l acc : Str), (∀ ch ∈ acc, ch.isWhitespace = false) →
      ∀ w ∈ wordsAux l acc, ∀ ch ∈ w, ch.isWhitespace = false := by
  intro l
  induction l with
  | nil =>
    intro acc hacc w hw ch hch
    rw [wordsAux_nil] at hw
    by_cases h : acc = []
    · simp [h] at hw
    · simp only [h, if_false, List.mem_singleton] at hw
      subst hw
      exact hacc ch (List.mem_reverse.mp hch)
  | cons c cs ih =>
    intro acc hacc w hw ch hch
    by_cases hc : c.isWhitespace
    · simp only [wordsAux, hc, if_true] at hw
      by_cases h : acc = []
      · exact ih [] (by simp) w (by simpa [h] using hw) ch hch
      · simp only [h, if_false, List.mem_cons] at hw
        rcases hw with hw | hw
        · subst hw
          exact hacc ch (List.mem_reverse.mp hch)
        · exact ih [] (by simp) w hw ch hch
    · simp only [wordsAux, hc, if_false, Bool.false_eq_true] at hw
      refine ih (c :: acc) ?_ w hw ch hch
      intro d hd
      rcases List.mem_cons.mp hd with h | h
      · subst h; simpa using hc
      · exact hacc d h

theorem mem_words_ne_nil (t : Str) (w : Str) (hw : w ∈ words t) : w ≠ [] :=
  mem_wordsAux_ne_nil t [] w hw

theorem mem_words_not_ws (t : Str) (w : Str) (hw : w ∈ words t) :
    ∀ ch ∈ w, ch.isWhitespace = false :=
  mem_wordsAux_not_ws t [] (by simp) w hw

theorem mem_words_chars (t : Str) (w : Str) (hw : w ∈ words t) :
    ∀ ch ∈ w, ch ∈ t := by
  intro ch hch
  rcases mem_wordsAux_chars t [] w hw ch hch with h | h
  · exact h
  · simp at h

/-! ## Collector lemmas -/

mutual
theorem collect_text_fragments_ext (v : PyVal) (bucket : List Str) :
    ∃ ext, collect_text_fragments v bucket = bucket ++ ext :=
  match v with
  | .vnone => ⟨[], by simp [collect_text_fragments]⟩
  | .vstr t => by
    by_cases h : strip t = []
    · exact ⟨[], by simp [collect_text_fragments, h]⟩
    · exact ⟨[strip t], by simp [collect_text_fragments, h]⟩
  | .vint n => ⟨[pyScalarStr (.vint n)], by simp [collect_text_fragments]⟩
  | .vfloat r => ⟨[pyScalarStr (.vfloat r)], by simp [collect_text_fragments]⟩
  | .vbool b => ⟨[pyScalarStr (.vbool b)], by simp [collect_text_fragments]⟩
  | .vdict es => by
    obtain ⟨ext, h⟩ := collectDictValues_ext es bucket
    exact ⟨ext, by rw [collect_text_fragments]; exact h⟩
  | .vlist items => by
    obtain ⟨ext, h⟩ := collectListItems_ext items bucket
    exact ⟨ext, by rw [collect_text_fragments]; exact h⟩

theorem collectDictValues_ext (es : List (Str × PyVal)) (bucket : List Str) :
    ∃ ext, collectDictValues es bucket = bucket ++ ext :=
  match es with
  | [] => ⟨[], by simp [collectDictValues]⟩
  | e :: rest => by
    obtain ⟨e1, h1⟩ := collect_text_fragments_ext e.2 bucket
    obtain ⟨e2, h2⟩ := collectDictValues_ext rest (collect_text_fragments e.2 bucket)
    exact ⟨e1 ++ e2, by rw [collectDictValues, h2, h1]; simp⟩

theorem collectListItems_ext (items : List PyVal) (bucket : List Str) :
    ∃ ext, collectListItems items bucket = bucket ++ ext :=
  match items with
  | [] => ⟨[], by simp [collectListItems]⟩
  | v :: rest => by
    obtain ⟨e1, h1⟩ := collect_text_fragments_ext v bucket
    obtain ⟨e2, h2⟩ := collectListItems_ext rest (collect_text_fragments v bucket)
    exact ⟨e1 ++ e2, by rw [collectListItems, h2, h1]; simp⟩
end

/-! ## `joinSep` lemmas -/

theorem joinSep_cons (sep x : Str) (ws : List Str) (h : ws ≠ []) :
    joinSep sep (x :: ws) = x ++ sep ++ joinSep sep ws := by
  cases ws with
  | nil => exact absurd rfl h
  | cons y ws => rfl

theorem joinSep_ne_nil (sep : Str) (ws : List Str) (hws : ws ≠ [])
    (hne : ∀ w ∈ ws, w ≠ []) : joinSep sep ws ≠ [] := by
  cases ws with
  | nil => exact absurd rfl hws
  | cons x ws =>
    cases ws with
    | nil => exact hne x (by simp)
    | cons y ws =>
      show x ++ sep ++ joinSep sep (y :: ws) ≠ []
      have hx : x ≠ [] := hne x (by simp)
      simp [hx]

theorem mem_joinSep (sep : Str) :
    ∀ (ws : List Str) (ch : Char), ch ∈ joinSep sep ws →
      ch ∈ sep ∨ ∃ w ∈ ws, ch ∈ w := by
  intro ws
  induction ws with
  | nil => intro ch hch; simp [joinSep] at hch
  | cons x ws ih =>
    intro ch hch
    cases ws with
    | nil =>
      exact Or.inr ⟨x, by simp, by simpa [joinSep] using hch⟩
    | cons y ws' =>
      rw [joinSep_cons sep x (y :: ws') (by simp)] at hch
      rcases List.mem_append.mp hch with h | h
      · rcases List.mem_append.mp h with h | h
        · exact Or.inr ⟨x, by simp, h⟩
        · exact Or.inl h
      · rcases ih ch h with h | ⟨w, hw, hcw⟩
        · exact Or.inl h
        · exact Or.inr ⟨w, List.mem_cons_of_mem x hw, hcw⟩

theorem joinSep_append (sep : Str) (ws₁ ws₂ : List Str)
    (h₁ : ws₁ ≠ []) (h₂ : ws₂ ≠ []) :
    joinSep sep (ws₁ ++ ws₂) = joinSep sep ws₁ ++ sep ++ joinSep sep ws₂ := by
  induction ws₁ with
  | nil => exact absurd rfl h₁
  | cons x ws₁ ih =>
    cases hw : ws₁ with
    | nil =>
      subst hw
      rw [List.singleton_append, joinSep_cons sep x ws₂ h₂]
      rfl
    | cons y ws' =>
      rw [← hw]
      have hne : ws₁ ≠ [] := by simp [hw]
      rw [List.cons_append, joinSep_cons sep x (ws₁ ++ ws₂) (by simp [hw]),
        joinSep_cons sep x ws₁ hne, ih hne]
      simp [List.append_assoc]

theorem chain'_of_not_ws (l : Str) (h : ∀ ch ∈ l, ch.isWhitespace = false) :
    l.Chain' (fun a b => a.isWhitespace = false ∨ b.isWhitespace = false) := by
  induction l with
  | nil => exact List.chain'_nil
  | cons a l ih =>
    rw [List.chain'_cons']
    exact ⟨fun y _ => Or.inl (h a (by simp)),
      ih (fun ch hch => h ch (List.mem_cons_of_mem a hch))⟩

theorem joinSep_space_collapsed :
    ∀ ws : List Str, (∀ w ∈ ws, w ≠ []) →
      (∀ w ∈ ws, ∀ ch ∈ w, ch.isWhitespace = false) →
      IsCollapsed (joinSep (sl " ") ws) := by
  intro ws
  induction ws with
  | nil => intro _ _; refine ⟨by simp [joinSep], by simp [joinSep], by simp [joinSep]⟩
  | cons x ws ih =>
    intro hne hws
    have hx : x ≠ [] := hne x (by simp)
    have hxws : ∀ ch ∈ x, ch.isWhitespace = false := hws x (by simp)
    cases ws with
    | nil =>
      refine ⟨?_, ?_, chain'_of_not_ws x hxws⟩
      · intro c hc
        exact hxws c (List.mem_of_mem_head? hc)
      · intro c hc
        rcases List.mem_getLast?_eq_getLast hc with ⟨h, rfl⟩
        exact hxws _ (List.getLast_mem h)
    | cons y ws' =>
      have hrest : IsCollapsed (joinSep (sl " ") (y :: ws')) :=
        ih (fun w hw => hne w (List.mem_cons_of_mem x hw))
          (fun w hw => hws w (List.mem_cons_of_mem x hw))
      have hJne : joinSep (sl " ") (y :: ws') ≠ [] :=
        joinSep_ne_nil _ _ (by simp)
          (fun w hw => hne w (List.mem_cons_of_mem x hw))
      obtain ⟨hdJ, hlJ, hcJ⟩ := hrest
      rw [joinSep_cons (sl " ") x (y :: ws') (by simp)]
      set J := joinSep (sl " ") (y :: ws') with hJ
      have hshape : x ++ sl " " ++ J = x ++ (' ' :: J) := by
        rw [List.append_assoc]; rfl
      rw [hshape]
      refine ⟨?_, ?_, ?_⟩
      · intro c hc
        cases hx' : x with
        | nil => exact absurd hx' hx
        | cons a x' =>
          rw [hx'] at hc
          simp only [List.cons_append, List.head?_cons, Option.mem_def,
            Option.some.injEq] at hc
          rw [← hc]
          exact hxws a (by simp [hx'])
      · intro c hc
        rw [List.getLast?_append] at hc
        obtain ⟨lJ, hlJ'⟩ : ∃ a, J.getLast? = some a := by
          have := List.getLast?_isSome.mpr hJne
          exact Option.isSome_iff_exists.mp this
        have hcons : (' ' :: J).getLast? = some lJ := by
          have : (' ' :: J).getLast? = ([' '] ++ J).getLast? := rfl
          rw [this, List.getLast?_append, hlJ']
          rfl
        rw [hcons] at hc
        simp only [Option.or_some, Option.mem_def, Option.some.injEq] at hc
        subst hc
        exact hlJ lJ hlJ'
      · rw [List.chain'_append]
        refine ⟨chain'_of_not_ws x hxws, ?_, ?_⟩
        · rw [List.chain'_cons']
          refine ⟨fun y' hy' => Or.inr (hdJ y' hy'), hcJ⟩
        · intro a ha b hb
          simp only [List.head?_cons, Option.mem_def, Option.some.injEq] at hb
          rcases List.mem_getLast?_eq_getLast ha with ⟨h, rfl⟩
          exact Or.inl (hxws _ (List.getLast_mem h))

/-! ## Structure of `normalize_text` output -/

theorem normalize_text_lower (t : Str) :
    ∀ ch ∈ normalize_text t, ch.toLower = ch := by
  intro ch hch
  rcases mem_joinSep (sl " ") (words (lowerStr t)) ch hch with h | ⟨w, hw, hcw⟩
  · rcases List.mem_singleton.mp h with rfl
    decide
  · have : ch ∈ lowerStr t := mem_words_chars (lowerStr t) w hw ch hcw
    rcases List.mem_map.mp this with ⟨d, _, rfl⟩
    exact toLower_toLower d

theorem normalize_text_collapsed (t : Str) : IsCollapsed (normalize_text t) :=
  joinSep_space_collapsed (words (lowerStr t))
    (fun w hw => mem_words_ne_nil (lowerStr t) w hw)
    (fun w hw => mem_words_not_ws (lowerStr t) w hw)

theorem normalize_text_head_fragment (f : Str) (rest : List Str) :
    normalize_text f <:+: normalize_text (joinSep (sl " ") (f :: rest)) := by
  cases rest with
  | nil =>
    exact ⟨[], [], by simp [joinSep]⟩
  | cons r rest' =>
    rw [joinSep_cons (sl " ") f (r :: rest') (by simp)]
    have hshape : f ++ sl " " ++ joinSep (sl " ") (r :: rest') =
        f ++ ' ' :: joinSep (sl " ") (r :: rest') := by
      rw [List.append_assoc]; rfl
    rw [hshape]
    set J := joinSep (sl " ") (r :: rest') with hJ
    have hsplit : words (lowerStr (f ++ ' ' :: J)) =
        words (lowerStr f) ++ words (lowerStr J) := by
      have : lowerStr (f ++ ' ' :: J) = lowerStr f ++ ' ' :: lowerStr J := by
        simp [lowerStr]
      rw [this]
      exact words_ws_split ' ' (by decide) (lowerStr f) (lowerStr J)
    show normalize_text f <:+: normalize_text (f ++ ' ' :: J)
    unfold normalize_text
    rw [hsplit]
    by_cases hJw : words (lowerStr J) = []
    · rw [hJw, List.append_nil]
    · by_cases hfw : words (lowerStr f) = []
      · rw [hfw]
        exact ⟨[], joinSep (sl " ") (words (lowerStr J)), by simp [hfw, joinSep]⟩
      · rw [joinSep_append (sl " ") _ _ hfw hJw]
        exact ⟨[], sl " " ++ joinSep (sl " ") (words (lowerStr J)), by
          simp [List.append_assoc]⟩

/-! ## Keyword engine lemmas -/

theorem mem_normalize_keywords_ne_nil :
    ∀ (vs seen : List Str) (kw : Str), kw ∈ normalize_keywords vs seen → kw ≠ [] := by
  intro vs
  induction vs with
  | nil => intro seen kw h; simp [normalize_keywords] at h
  | cons raw rest ih =>
    intro seen kw h
    rw [normalize_keywords] at h
    split at h
    · exact ih seen kw h
    · rcases List.mem_cons.mp h with h | h
      · subst h
        rename_i hcond
        push_neg at hcond
        exact hcond.1
      · exact ih _ kw h

theorem text_ne_nil_of_sub (kw T : Str) (h : kw <:+: T) (hkw : kw ≠ []) :
    T ≠ [] := by
  rcases h with ⟨s, t, rfl⟩
  intro h
  rcases List.append_eq_nil.mp h with ⟨h1, h2⟩
  rcases List.append_eq_nil.mp h1 with ⟨_, h3⟩
  exact hkw h3

theorem extract_include_eq (g : RawGroup) (fb : Str) :
    (extract_group_fields g fb).include_keywords =
      normalize_keywords g.include_keywords [] := rfl

theorem extract_exclude_eq (g : RawGroup) (fb : Str) :
    (extract_group_fields g fb).exclude_keywords =
      normalize_keywords g.exclude_keywords [] := rfl

theorem group_matches_iff (g : RawGroup) (text fb : Str) :
    group_matches g text = true ↔
      ((extract_group_fields g fb).include_keywords ≠ [] ∧
       (extract_group_fields g fb).include_keywords.filter
         (fun kw => ! pyInStr kw text) = [] ∧
       (extract_group_fields g fb).exclude_keywords.filter
         (fun kw => pyInStr kw text) = []) := by
  rw [extract_include_eq, extract_exclude_eq]
  simp [group_matches, Bool.and_eq_true, decide_eq_true_eq, and_assoc]

theorem evalGroupsLoop_no_match (text : Str) :
    ∀ (gs : List RawGroup) (idx : Nat) (fails : List Str),
      (∀ (i : Nat) (hi : i < gs.length),
        group_matches (gs.get ⟨i, hi⟩) text = false) →
      evalGroupsLoop text gs idx fails =
        noMatchVerdict (fails ++ groupFailReasons text gs idx) := by
  intro gs
  induction gs with
  | nil => intro idx fails _; simp [evalGroupsLoop, groupFailReasons]
  | cons g rest ih =>
    intro idx fails hall
    have h0 : group_matches g text = false := hall 0 (by simp)
    have hrest : ∀ (i : Nat) (hi : i < rest.length),
        group_matches (rest.get ⟨i, hi⟩) text = false := by
      intro i hi
      exact hall (i + 1) (by simpa using Nat.succ_lt_succ hi)
    rw [evalGroupsLoop, groupFailReasons]
    by_cases hinc : (extract_group_fields g (fallbackGroupName idx)).include_keywords = []
    · rw [if_pos hinc, if_pos hinc, ih (idx + 1) _ hrest]
      simp
    · rw [if_neg hinc, if_neg hinc]
      have hnm : ¬ ((extract_group_fields g (fallbackGroupName idx)).include_keywords.filter
            (fun kw => ! pyInStr kw text) = [] ∧
          (extract_group_fields g (fallbackGroupName idx)).exclude_keywords.filter
            (fun kw => pyInStr kw text) = []) := by
        intro hc
        have : group_matches g text = true :=
          (group_matches_iff g text (fallbackGroupName idx)).mpr ⟨hinc, hc.1, hc.2⟩
        rw [h0] at this
        exact Bool.false_ne_true this
      rw [if_neg hnm, if_neg hnm, ih (idx + 1) _ hrest]
      simp

theorem evalGroupsLoop_first_match (text : Str) :
    ∀ (gs : List RawGroup) (idx : Nat) (fails : List Str) (i : Nat)
      (hi : i < gs.length),
      group_matches (gs.get ⟨i, hi⟩) text = true →
      (∀ (j : Nat) (hj : j < i),
        group_matches (gs.get ⟨j, Nat.lt_trans hj hi⟩) text = false) →
      evalGroupsLoop text gs idx fails =
        successVerdict (extract_group_fields (gs.get ⟨i, hi⟩)
          (fallbackGroupName (idx + i))) := by
  intro gs
  induction gs with
  | nil => intro idx fails i hi; exact absurd hi (by simp)
  | cons g rest ih =>
    intro idx fails i hi hmatch hfirst
    cases i with
    | zero =>
      have hm : group_matches g text = true := hmatch
      rw [evalGroupsLoop]
      have := (group_matches_iff g text (fallbackGroupName idx)).mp hm
      rw [if_neg (by simpa using this.1), if_pos ⟨this.2.1, this.2.2⟩]
      simp
    | succ i' =>
      have h0 : group_matches g text = false := hfirst 0 (Nat.succ_pos i')
      have hi' : i' < rest.length := Nat.lt_of_succ_lt_succ hi
      have hmatch' : group_matches (rest.get ⟨i', hi'⟩) text = true := hmatch
      have hfirst' : ∀ (j : Nat) (hj : j < i'),
          group_matches (rest.get ⟨j, Nat.lt_trans hj hi'⟩) text = false := by
        intro j hj
        exact hfirst (j + 1) (Nat.succ_lt_succ hj)
      rw [evalGroupsLoop]
      have harith : idx + (i' + 1) = (idx + 1) + i' := by omega
      by_cases hinc : (extract_group_fields g (fallbackGroupName idx)).include_keywords = []
      · rw [if_pos hinc, ih (idx + 1) _ i' hi' hmatch' hfirst']
        rw [harith]
        rfl
      · rw [if_neg hinc]
        have hnm : ¬ ((extract_group_fields g (fallbackGroupName idx)).include_keywords.filter
              (fun kw => ! pyInStr kw text) = [] ∧
            (extract_group_fields g (fallbackGroupName idx)).exclude_keywords.filter
              (fun kw => pyInStr kw text) = []) := by
          intro hc
          have : group_matches g text = true :=
            (group_matches_iff g text (fallbackGroupName idx)).mpr ⟨hinc, hc.1, hc.2⟩
          rw [h0] at this
          exact Bool.false_ne_true this
        rw [if_neg hnm, ih (idx + 1) _ i' hi' hmatch' hfirst']
        rw [harith]
        rfl

theorem evaluate_eq_loop (groups : List RawGroup) (T : Str)
    (hT : normalize_text T ≠ []) (hg : groups ≠ []) :
    evaluate_keyword_rules groups T = evalGroupsLoop (normalize_text T) groups 1 [] := by
  unfold evaluate_keyword_rules
  rw [if_neg hT, if_neg (by simp [hg])]

theorem filter_missing_iff (inc : List Str) (T : Str) :
    (inc.filter (fun kw => ! pyInStr kw T) = []) ↔ ∀ kw ∈ inc, kw <:+: T := by
  rw [List.filter_eq_nil_iff]
  constructor
  · intro h kw hkw
    have := h kw hkw
    simpa [pyInStr] using this
  · intro h kw hkw
    simpa [pyInStr] using h kw hkw

theorem filter_blocked_iff (exc : List Str) (T : Str) :
    (exc.filter (fun kw => pyInStr kw T) = []) ↔ ∀ kw ∈ exc, ¬ kw <:+: T := by
  rw [List.filter_eq_nil_iff]
  constructor
  · intro h kw hkw
    have := h kw hkw
    simpa [pyInStr] using this
  · intro h kw hkw
    simpa [pyInStr] using h kw hkw

/-- C1: for a rule group whose normalized include list is non-empty and a
non-empty normalized search text `T`, the evaluator declares the group a
match (is_recommended = true when it is reached) iff every include keyword
is a contiguous substring of `T` and no exclude keyword is. -/
theorem C1_keyword_group_truth_table (g : RawGroup) (T : Str)
    (hfix : normalize_text T = T) (hT : T ≠ [])
    (hinc : normalize_keywords g.include_keywords [] ≠ []) :
    (evaluate_keyword_rules [g] T).is_recommended = true ↔
      ((∀ kw ∈ normalize_keywords g.include_keywords [], kw <:+: T) ∧
       (∀ kw ∈ normalize_keywords g.exclude_keywords [], ¬ kw <:+: T)) := by
  have hT' : normalize_text T ≠ [] := by rw [hfix]; exact hT
  rw [evaluate_eq_loop [g] T hT' (by simp), hfix]
  rw [evalGroupsLoop]
  rw [if_neg (by rw [extract_include_eq]; exact hinc)]
  have hmiss := filter_missing_iff
    ((extract_group_fields g (fallbackGroupName 1)).include_keywords) T
  have hblock := filter_blocked_iff
    ((extract_group_fields g (fallbackGroupName 1)).exclude_keywords) T
  rw [extract_include_eq] at hmiss
  rw [extract_exclude_eq] at hblock
  by_cases hc :
      ((extract_group_fields g (fallbackGroupName 1)).include_keywords.filter
        (fun kw => ! pyInStr kw T) = [] ∧
       (extract_group_fields g (fallbackGroupName 1)).exclude_keywords.filter
        (fun kw => pyInStr kw T) = [])
  · rw [if_pos hc]
    constructor
    · intro _
      exact ⟨hmiss.mp hc.1, hblock.mp hc.2⟩
    · intro _
      rfl
  · rw [if_neg hc]
    rw [evalGroupsLoop]
    constructor
    · intro h
      exact absurd h (by simp [noMatchVerdict])
    · intro h
      exact absurd ⟨hmiss.mpr h.1, hblock.mpr h.2⟩ hc

theorem C1_keyword_group_truth_table_witness :
    (evaluate_keyword_rules
        [{ name := some (sl "组1"), include_keywords := [sl "a7m4"],
           exclude_keywords := [sl "面交"] }] (sl "a7m4 支持验货宝")).is_recommended
        = true ↔
      ((∀ kw ∈ normalize_keywords [sl "a7m4"] [], kw <:+: sl "a7m4 支持验货宝") ∧
       (∀ kw ∈ normalize_keywords [sl "面交"] [], ¬ kw <:+: sl "a7m4 支持验货宝")) :=
  C1_keyword_group_truth_table
    { name := some (sl "组1"), include_keywords := [sl "a7m4"],
      exclude_keywords := [sl "面交"] }
    (sl "a7m4 支持验货宝") (by decide) (by decide) (by decide)

theorem text_ne_nil_of_group_matches (g : RawGroup) (text : Str)
    (h : group_matches g text = true) : text ≠ [] := by
  have h' := (group_matches_iff g text []).mp h
  rcases h'.1, h'.2.1 with ⟨hne, hmiss⟩
  rw [extract_include_eq] at hne hmiss
  rcases List.exists_mem_of_ne_nil _ hne with ⟨kw, hkw⟩
  have hsub : kw <:+: text := (filter_missing_iff _ text).mp hmiss kw hkw
  exact text_ne_nil_of_sub kw text hsub
    (mem_normalize_keywords_ne_nil g.include_keywords [] kw hkw)

/-- C2: the evaluator iterates groups in order and returns at the first
matching group: the verdict is recommended, names exactly that group, lists
its normalized include keywords and has no blocked keywords; later groups
never influence the result. -/
theorem C2_first_match_wins (groups : List RawGroup) (T : Str)
    (i : Nat) (hi : i < groups.length)
    (hmatch : group_matches (groups.get ⟨i, hi⟩) (normalize_text T) = true)
    (hfirst : ∀ (j : Nat) (hj : j < i),
      group_matches (groups.get ⟨j, Nat.lt_trans hj hi⟩) (normalize_text T) = false) :
    (evaluate_keyword_rules groups T).is_recommended = true ∧
    (evaluate_keyword_rules groups T).matched_groups =
      [(extract_group_fields (groups.get ⟨i, hi⟩) (fallbackGroupName (i + 1))).name] ∧
    (evaluate_keyword_rules groups T).matched_keywords =
      normalize_keywords (groups.get ⟨i, hi⟩).include_keywords [] ∧
    (evaluate_keyword_rules groups T).blocked_keywords = [] := by
  have hT : normalize_text T ≠ [] :=
    text_ne_nil_of_group_matches (groups.get ⟨i, hi⟩) (normalize_text T) hmatch
  have hg : groups ≠ [] := by
    intro h
    subst h
    exact absurd hi (by simp)
  rw [evaluate_eq_loop groups T hT hg]
  rw [evalGroupsLoop_first_match (normalize_text T) groups 1 [] i hi hmatch hfirst]
  rw [Nat.add_comm 1 i]
  exact ⟨rfl, rfl, rfl, rfl⟩

theorem C2_first_match_wins_witness :
    (evaluate_keyword_rules
        [{ name := some (sl "组1"), include_keywords := [sl "a7m4", sl "佳能"],
           exclude_keywords := [] },
         { name := some (sl "组2"), include_keywords := [sl "a7m4", sl "验货宝"],
           exclude_keywords := [] }]
        (sl "Sony A7M4 全画幅相机 验货宝 包邮")).matched_groups = [sl "组2"] :=
  (C2_first_match_wins
    [{ name := some (sl "组1"), include_keywords := [sl "a7m4", sl "佳能"],
       exclude_keywords := [] },
     { name := some (sl "组2"), include_keywords := [sl "a7m4", sl "验货宝"],
       exclude_keywords := [] }]
    (sl "Sony A7M4 全画幅相机 验货宝 包邮") 1 (by decide) (by decide)
    (by
      intro j hj
      have hj0 : j = 0 := by omega
      subst hj0
      show group_matches
        { name := some (sl "组1"), include_keywords := [sl "a7m4", sl "佳能"],
          exclude_keywords := [] }
        (normalize_text (sl "Sony A7M4 全画幅相机 验货宝 包邮")) = false
      decide)).2.1

/-- C5: the evaluator is total on degenerate inputs: empty normalized text
gives the fixed no-text verdict, an empty group list gives the fixed
no-groups verdict, and when no group matches the verdict is the negative one
whose reason joins at most the first three recorded group failure reasons. -/
theorem C5_degenerate_totality :
    (∀ (groups : List RawGroup) (T : Str), normalize_text T = [] →
      evaluate_keyword_rules groups T = noTextVerdict) ∧
    (∀ T : Str, normalize_text T ≠ [] →
      evaluate_keyword_rules [] T = noGroupsVerdict) ∧
    (∀ (groups : List RawGroup) (T : Str), normalize_text T ≠ [] → groups ≠ [] →
      (∀ (i : Nat) (hi : i < groups.length),
        group_matches (groups.get ⟨i, hi⟩) (normalize_text T) = false) →
      evaluate_keyword_rules groups T =
        noMatchVerdict (groupFailReasons (normalize_text T) groups 1)) := by
  refine ⟨?_, ?_, ?_⟩
  · intro groups T h
    unfold evaluate_keyword_rules
    rw [if_pos h]
  · intro T h
    unfold evaluate_keyword_rules
    rw [if_neg h]
    rfl
  · intro groups T hT hg hall
    rw [evaluate_eq_loop groups T hT hg,
      evalGroupsLoop_no_match (normalize_text T) groups 1 [] hall]
    simp

theorem C5_degenerate_totality_witness :
    (evaluate_keyword_rules
      [{ name := some (sl "组1"), include_keywords := [sl "a7m4"],
         exclude_keywords := [] }] (sl "   ") = noTextVerdict) ∧
    (evaluate_keyword_rules [] (sl "abc") = noGroupsVerdict) ∧
    (evaluate_keyword_rules
      [{ name := none, include_keywords := [], exclude_keywords := [] },
       { name := some (sl "组2"), include_keywords := [sl "xyz"],
         exclude_keywords := [] }] (sl "abc") =
      noMatchVerdict (groupFailReasons (normalize_text (sl "abc"))
        [{ name := none, include_keywords := [], exclude_keywords := [] },
         { name := some (sl "组2"), include_keywords := [sl "xyz"],
           exclude_keywords := [] }] 1)) := by
  refine ⟨C5_degenerate_totality.1 _ _ (by decide),
    C5_degenerate_totality.2.1 _ (by decide),
    C5_degenerate_totality.2.2 _ _ (by decide) (by simp) ?_⟩
  intro i hi
  have h2 : i < 2 := by simpa using hi
  interval_cases i
  · show group_matches
      { name := none, include_keywords := [], exclude_keywords := [] }
      (normalize_text (sl "abc")) = false
    decide
  · show group_matches
      { name := some (sl "组2"), include_keywords := [sl "xyz"],
        exclude_keywords := [] }
      (normalize_text (sl "abc")) = false
    decide

/-! ## AI runtime resolver theorems -/

/-- C4 (counterexample): with none of the four environment variables set,
`api_key` resolves to `None` (absent), not to the empty string claimed. -/
theorem C4_resolver_counterexample :
    (resolve_ai_runtime_config (fun _ => none)).api_key = none ∧
    (resolve_ai_runtime_config (fun _ => none)).api_key ≠ some (sl "") := by
  refine ⟨rfl, ?_⟩
  decide

/-- C4 (amended): the precedence rules of `resolve_ai_runtime_config` hold
as claimed, except that with none of the four variables set `api_key` is
absent (`None`) while `base_url`/`model_name` are empty strings and
`is_gemini_openai_compat` is false; the function is total by construction. -/
theorem C4_resolver_spec (source : Str → Option Str) :
    ((resolve_ai_runtime_config source).api_key =
      if truthyOptStr (source (sl "OPENAI_API_KEY")) then source (sl "OPENAI_API_KEY")
      else source (sl "GEMINI_API_KEY")) ∧
    ((resolve_ai_runtime_config source).is_gemini_openai_compat =
      (truthyOptStr (source (sl "GEMINI_API_KEY")) &&
        ! truthyOptStr (source (sl "OPENAI_API_KEY")))) ∧
    ((resolve_ai_runtime_config source).base_url =
      if truthyOptStr (source (sl "OPENAI_BASE_URL")) then
        (source (sl "OPENAI_BASE_URL")).getD []
      else if truthyOptStr (source (sl "GEMINI_API_KEY")) &&
          ! truthyOptStr (source (sl "OPENAI_API_KEY")) then
        GEMINI_OPENAI_COMPAT_BASE_URL
      else []) ∧
    ((resolve_ai_runtime_config source).model_name =
      if truthyOptStr (source (sl "OPENAI_MODEL_NAME")) then
        (source (sl "OPENAI_MODEL_NAME")).getD []
      else if truthyOptStr (source (sl "GEMINI_API_KEY")) &&
          ! truthyOptStr (source (sl "OPENAI_API_KEY")) then
        GEMINI_DEFAULT_MODEL_NAME
      else []) ∧
    ((source (sl "OPENAI_API_KEY") = none ∧ source (sl "GEMINI_API_KEY") = none ∧
      source (sl "OPENAI_BASE_URL") = none ∧ source (sl "OPENAI_MODEL_NAME") = none) →
      resolve_ai_runtime_config source =
        { api_key := none, base_url := [], model_name := [],
          is_gemini_openai_compat := false }) := by
  unfold resolve_ai_runtime_config
  refine ⟨rfl, rfl, ?_, ?_, ?_⟩
  · cases hb : source (sl "OPENAI_BASE_URL") with
    | none => simp [pyOrEmpty, truthyOptStr]
    | some t =>
      by_cases ht : t = [] <;>
        simp [pyOrEmpty, truthyOptStr, ht]
  · cases hm : source (sl "OPENAI_MODEL_NAME") with
    | none => simp [pyOrEmpty, truthyOptStr]
    | some t =>
      by_cases ht : t = [] <;>
        simp [pyOrEmpty, truthyOptStr, ht]
  · intro ⟨ho, hg, hb, hm⟩
    simp [ho, hg, hb, hm, pyOrEmpty, pyOrOpt, truthyOptStr]

theorem C4_resolver_spec_witness :
    resolve_ai_runtime_config (fun _ => none) =
      { api_key := none, base_url := [], model_name := [],
        is_gemini_openai_compat := false } :=
  (C4_resolver_spec (fun _ => none)).2.2.2.2 ⟨rfl, rfl, rfl, rfl⟩

/-! ## Decimal representation lemmas (for the price validator) -/

theorem digitChar_ne_n_u (m : Nat) :
    Nat.digitChar m ≠ 'n' ∧ Nat.digitChar m ≠ 'u' := by
  by_cases h : m < 16
  · interval_cases m <;> exact ⟨by decide, by decide⟩
  · have hstar : Nat.digitChar m = '*' := by
      unfold Nat.digitChar
      repeat rw [if_neg (by omega)]
    rw [hstar]
    exact ⟨by decide, by decide⟩

theorem toDigitsCore_chars (b : Nat) :
    ∀ (f n : Nat) (l : List Char), ∀ c ∈ Nat.toDigitsCore b f n l,
      c ∈ l ∨ ∃ m, c = Nat.digitChar m := by
  intro f
  induction f with
  | zero => intro n l c hc; exact Or.inl hc
  | succ f ih =>
    intro n l c hc
    rw [Nat.toDigitsCore] at hc
    split at hc
    · rcases List.mem_cons.mp hc with h | h
      · exact Or.inr ⟨n % b, h⟩
      · exact Or.inl h
    · rcases ih (n / b) (Nat.digitChar (n % b) :: l) c hc with h | h
      · rcases List.mem_cons.mp h with h | h
        · exact Or.inr ⟨n % b, h⟩
        · exact Or.inl h
      · exact Or.inr h

theorem toDigitsCore_length_ge (b : Nat) :
    ∀ (f n : Nat) (l : List Char),
      l.length ≤ (Nat.toDigitsCore b f n l).length := by
  intro f
  induction f with
  | zero => intro n l; exact Nat.le_refl _
  | succ f ih =>
    intro n l
    rw [Nat.toDigitsCore]
    split
    · exact Nat.le_succ _
    · exact Nat.le_trans (Nat.le_succ _) (ih (n / b) (Nat.digitChar (n % b) :: l))

theorem toDigits_ne_nil (b n : Nat) : Nat.toDigits b n ≠ [] := by
  unfold Nat.toDigits
  rw [Nat.toDigitsCore]
  split
  · simp
  · intro h
    have := toDigitsCore_length_ge b n (n / b) [Nat.digitChar (n % b)]
    rw [h] at this
    simp at this

theorem nat_repr_data (n : Nat) : (Nat.repr n).data = Nat.toDigits 10 n := rfl

theorem nat_repr_chars (n : Nat) :
    ∀ c ∈ (Nat.repr n).data, ∃ m, c = Nat.digitChar m := by
  intro c hc
  rw [nat_repr_data] at hc
  rcases toDigitsCore_chars 10 (n + 1) n [] c hc with h | h
  · simp at h
  · exact h

theorem int_repr_not_sentinel (i : Int) :
    (Int.repr i).data ≠ [] ∧ (Int.repr i).data ≠ sl "null" ∧
    (Int.repr i).data ≠ sl "undefined" := by
  cases i with
  | ofNat m =>
    have hchars := nat_repr_chars m
    refine ⟨?_, ?_, ?_⟩
    · show (Nat.repr m).data ≠ []
      rw [nat_repr_data]
      exact toDigits_ne_nil 10 m
    · show (Nat.repr m).data ≠ sl "null"
      intro h
      have hn : 'n' ∈ (Nat.repr m).data := by rw [h]; decide
      rcases hchars 'n' hn with ⟨m', hm⟩
      exact (digitChar_ne_n_u m').1 hm.symm
    · show (Nat.repr m).data ≠ sl "undefined"
      intro h
      have hu : 'u' ∈ (Nat.repr m).data := by rw [h]; decide
      rcases hchars 'u' hu with ⟨m', hm⟩
      exact (digitChar_ne_n_u m').2 hm.symm
  | negSucc m =>
    have hdata : (Int.repr (Int.negSucc m)).data = '-' :: (Nat.repr (m + 1)).data :=
      rfl
    rw [hdata]
    refine ⟨by simp, ?_, ?_⟩
    · intro h
      have := List.head_eq_of_cons_eq h
      exact absurd this (by decide)
    · intro h
      have := List.head_eq_of_cons_eq h
      exact absurd this (by decide)

/-- C9: the price validator shared by the Create/Update DTOs sends `""`,
`"null"`, `"undefined"` and `None` to `None`, numbers to their decimal
string form, leaves other strings unchanged, and is idempotent on its own
output (floats are carried by their decimal string form, which — as for
every actual Python float — is never one of the three sentinel strings). -/
theorem C9_price_normalization :
    (Models.convert_price_to_str .pnone = none ∧
     Models.convert_price_to_str (.pstr (sl "")) = none ∧
     Models.convert_price_to_str (.pstr (sl "null")) = none ∧
     Models.convert_price_to_str (.pstr (sl "undefined")) = none) ∧
    (∀ n : Int, Models.convert_price_to_str (.pint n) = some (Int.repr n).data) ∧
    (∀ r : Str, Models.convert_price_to_str (.pfloat r) = some r) ∧
    (∀ v : Str, v ≠ sl "" → v ≠ sl "null" → v ≠ sl "undefined" →
      Models.convert_price_to_str (.pstr v) = some v) ∧
    (∀ p : Models.PriceInput,
      (∀ r : Str, p = .pfloat r →
        r ≠ sl "" ∧ r ≠ sl "null" ∧ r ≠ sl "undefined") →
      Models.convert_price_to_str
        (Models.priceOutputAsInput (Models.convert_price_to_str p)) =
        Models.convert_price_to_str p) := by
  refine ⟨⟨rfl, by decide, by decide, by decide⟩, fun n => rfl, fun r => rfl, ?_, ?_⟩
  · intro v h1 h2 h3
    simp [Models.convert_price_to_str, h1, h2, h3]
  · intro p hfl
    cases p with
    | pnone => rfl
    | pstr v =>
      by_cases hs : v = sl "" ∨ v = sl "null" ∨ v = sl "undefined"
      · simp [Models.convert_price_to_str, hs, Models.priceOutputAsInput]
      · push_neg at hs
        simp [Models.convert_price_to_str, hs.1, hs.2.1, hs.2.2,
          Models.priceOutputAsInput]
    | pint n =>
      have h := int_repr_not_sentinel n
      have h0 : (Int.repr n).data ≠ sl "" := by
        intro hc
        exact h.1 hc
      simp [Models.convert_price_to_str, Models.priceOutputAsInput,
        h0, h.2.1, h.2.2]
    | pfloat r =>
      have h := hfl r rfl
      simp [Models.convert_price_to_str, Models.priceOutputAsInput,
        h.1, h.2.1, h.2.2]

theorem C9_price_normalization_witness :
    Models.convert_price_to_str
        (Models.priceOutputAsInput
          (Models.convert_price_to_str (.pfloat (sl "19.5")))) =
      Models.convert_price_to_str (.pfloat (sl "19.5")) := by
  refine C9_price_normalization.2.2.2.2 (.pfloat (sl "19.5")) ?_
  intro r hr
  injection hr with h
  subst h
  exact ⟨by decide, by decide, by decide⟩

/-! ## Task DTO validation theorems -/

theorem msgAI_ne_msgKeyword : Models.msgAIDescription ≠ Models.msgKeywordGroups := by
  decide

/-- C3 (amended): `TaskCreate` construction fails with the AI message
exactly when mode is `ai` with a blank/absent description, with the keyword
message exactly when mode is `keyword` and no group has include keywords,
and succeeds otherwise; the `Task` class itself has no such validator, so
constructing a `Task` never fails. -/
theorem C3_create_validation :
    (∀ c : Models.TaskCreate,
      (Models.TaskCreate.construct c = Except.error Models.msgAIDescription ↔
        c.decision_mode = .ai ∧ strip (c.description.getD []) = []) ∧
      (Models.TaskCreate.construct c = Except.error Models.msgKeywordGroups ↔
        c.decision_mode = .keyword ∧
          Models.has_valid_keyword_groups c.keyword_rule_groups = false) ∧
      (Models.TaskCreate.construct c = Except.ok c ↔
        ¬(c.decision_mode = .ai ∧ strip (c.description.getD []) = []) ∧
        ¬(c.decision_mode = .keyword ∧
            Models.has_valid_keyword_groups c.keyword_rule_groups = false))) ∧
    (∀ t : Models.Task, Models.Task.construct t = Except.ok t) := by
  refine ⟨?_, fun t => rfl⟩
  intro c
  unfold Models.TaskCreate.construct Models.TaskCreate.validate_decision_mode_payload
  dsimp only []
  split_ifs with hA hB
  · obtain ⟨hA1, hA2⟩ := hA
    simp [hA1, hA2, msgAI_ne_msgKeyword]
  · obtain ⟨hB1, hB2⟩ := hB
    rw [Bool.not_eq_true] at hB2
    have hmsg : Models.msgKeywordGroups ≠ Models.msgAIDescription :=
      Ne.symm msgAI_ne_msgKeyword
    refine ⟨?_, ?_, ?_⟩
    · simp [hB1, hmsg]
    · simp [hB1, hB2]
    · simp [hB1, hB2]
  · have hB' : ¬(c.decision_mode = Models.DecisionMode.keyword ∧
        Models.has_valid_keyword_groups c.keyword_rule_groups = false) := by
      intro h
      exact hB ⟨h.1, by simp [h.2]⟩
    refine ⟨⟨fun h => absurd h (by simp), fun h => absurd h hA⟩,
      ⟨fun h => absurd h (by simp), fun h => absurd h hB'⟩,
      ⟨fun _ => ⟨hA, hB'⟩, fun _ => rfl⟩⟩

theorem C3_create_validation_witness :
    Models.TaskCreate.construct Models.sampleBlankAICreate =
      Except.error Models.msgAIDescription :=
  ((C3_create_validation.1 Models.sampleBlankAICreate).1).mpr ⟨rfl, rfl⟩

/-- C3 (counterexample): the claim also asserts the validation failure when
creating a Task itself, but the `Task` class has no decision-mode validator:
the very payload that `TaskCreate` rejects constructs a `Task` successfully. -/
theorem C3_task_counterexample :
    Models.Task.construct Models.sampleBlankAITask =
      Except.ok Models.sampleBlankAITask ∧
    Models.sampleBlankAITask.decision_mode = Models.DecisionMode.ai ∧
    strip (Models.sampleBlankAITask.description.getD []) = [] ∧
    Models.TaskCreate.construct Models.sampleBlankAICreate =
      Except.error Models.msgAIDescription := by
  refine ⟨rfl, rfl, rfl, rfl⟩

/-- C6: the partial-update validator fires only on supplied fields — it
rejects exactly an update that itself carries mode `keyword` together with
an includeless group list, or mode `ai` together with a blank description;
and two individually valid partial updates can leave the merged task in
keyword mode with no usable rule group. -/
theorem C6_partial_update_validation :
    (∀ u : Models.TaskUpdate,
      (Models.TaskUpdate.validate_partial_keyword_payload u =
          Except.error Models.msgKeywordGroups ↔
        u.decision_mode = some .keyword ∧
          ∃ gs, u.keyword_rule_groups = some gs ∧
            Models.has_valid_keyword_groups gs = false) ∧
      (Models.TaskUpdate.validate_partial_keyword_payload u =
          Except.error Models.msgAIDescription ↔
        u.decision_mode = some .ai ∧
          ∃ d, u.description.join = some d ∧ strip d = []) ∧
      (Models.TaskUpdate.validate_partial_keyword_payload u = Except.ok u ↔
        ¬(u.decision_mode = some .keyword ∧
            ∃ gs, u.keyword_rule_groups = some gs ∧
              Models.has_valid_keyword_groups gs = false) ∧
        ¬(u.decision_mode = some .ai ∧
            ∃ d, u.description.join = some d ∧ strip d = []))) ∧
    (Models.TaskUpdate.validate_partial_keyword_payload Models.clearGroupsUpdate =
      Except.ok Models.clearGroupsUpdate ∧
     Models.TaskUpdate.validate_partial_keyword_payload Models.keywordModeUpdate =
      Except.ok Models.keywordModeUpdate ∧
     ((Models.sampleValidAITask.apply_update
        Models.clearGroupsUpdate).apply_update
          Models.keywordModeUpdate).decision_mode = Models.DecisionMode.keyword ∧
     Models.has_valid_keyword_groups
       ((Models.sampleValidAITask.apply_update
          Models.clearGroupsUpdate).apply_update
            Models.keywordModeUpdate).keyword_rule_groups = false) := by
  constructor
  · intro u
    have hmsg : Models.msgKeywordGroups ≠ Models.msgAIDescription :=
      Ne.symm msgAI_ne_msgKeyword
    have hKiff : (u.decision_mode = some .keyword ∧ u.keyword_rule_groups ≠ none ∧
        ¬ Models.has_valid_keyword_groups (u.keyword_rule_groups.getD []) = true) ↔
        (u.decision_mode = some .keyword ∧
          ∃ gs, u.keyword_rule_groups = some gs ∧
            Models.has_valid_keyword_groups gs = false) := by
      cases hg : u.keyword_rule_groups with
      | none => simp
      | some gs => simp [Bool.not_eq_true]
    have hAIff : (u.decision_mode = some .ai ∧ u.description.join ≠ none ∧
        strip (u.description.join.getD []) = []) ↔
        (u.decision_mode = some .ai ∧
          ∃ d, u.description.join = some d ∧ strip d = []) := by
      cases hd : u.description.join with
      | none => simp
      | some d => simp
    unfold Models.TaskUpdate.validate_partial_keyword_payload
    dsimp only []
    split_ifs with hA hB
    · obtain ⟨hmode, gs, hgs, hv⟩ := hKiff.mp hA
      have hK2 : u.decision_mode = some Models.DecisionMode.keyword ∧
          ∃ gs, u.keyword_rule_groups = some gs ∧
            Models.has_valid_keyword_groups gs = false := ⟨hmode, gs, hgs, hv⟩
      refine ⟨⟨fun _ => hK2, fun _ => rfl⟩, ?_, ?_⟩
      · simp [hmsg, hmode]
      · exact ⟨fun h => absurd h (by simp), fun h => absurd hK2 h.1⟩
    · obtain ⟨hmode, d, hd, hds⟩ := hAIff.mp hB
      have hB2 : u.decision_mode = some Models.DecisionMode.ai ∧
          ∃ d, u.description.join = some d ∧ strip d = [] := ⟨hmode, d, hd, hds⟩
      have hA' : ¬(u.decision_mode = some Models.DecisionMode.keyword ∧
          ∃ gs, u.keyword_rule_groups = some gs ∧
            Models.has_valid_keyword_groups gs = false) := fun h => hA (hKiff.mpr h)
      refine ⟨?_, ⟨fun _ => hB2, fun _ => rfl⟩, ?_⟩
      · simp [msgAI_ne_msgKeyword, hmode]
      · exact ⟨fun h => absurd h (by simp), fun h => absurd hB2 h.2⟩
    · have hA' : ¬(u.decision_mode = some Models.DecisionMode.keyword ∧
          ∃ gs, u.keyword_rule_groups = some gs ∧
            Models.has_valid_keyword_groups gs = false) := fun h => hA (hKiff.mpr h)
      have hB' : ¬(u.decision_mode = some Models.DecisionMode.ai ∧
          ∃ d, u.description.join = some d ∧ strip d = []) := fun h => hB (hAIff.mpr h)
      refine ⟨⟨fun h => absurd h (by simp), fun h => absurd h hA'⟩,
        ⟨fun h => absurd h (by simp), fun h => absurd h hB'⟩,
        ⟨fun _ => ⟨hA', hB'⟩, fun _ => rfl⟩⟩
  · exact ⟨rfl, rfl, rfl, rfl⟩

theorem C6_partial_update_validation_witness :
    Models.TaskUpdate.validate_partial_keyword_payload Models.clearGroupsUpdate =
      Except.ok Models.clearGroupsUpdate ∧
    Models.TaskUpdate.validate_partial_keyword_payload Models.keywordModeUpdate =
      Except.ok Models.keywordModeUpdate ∧
    ((Models.sampleValidAITask.apply_update
      Models.clearGroupsUpdate).apply_update
        Models.keywordModeUpdate).decision_mode = Models.DecisionMode.keyword ∧
    Models.has_valid_keyword_groups
      ((Models.sampleValidAITask.apply_update
        Models.clearGroupsUpdate).apply_update
          Models.keywordModeUpdate).keyword_rule_groups = false :=
  C6_partial_update_validation.2

/-! ## `apply_update` frame theorem -/

theorem getD_eq_self {α : Type} (o : Option α) (a : α)
    (h : o = none ∨ o = some a) : o.getD a = a := by
  rcases h with h | h <;> simp [h]

/-- C8: `apply_update` overwrites exactly the supplied update fields, keeps
every other field (including `id`) from the original task, and an update
whose supplied fields all equal the task's current values yields a task
equal to the original; the original value itself is never mutated (the model
is a pure function returning a fresh value). -/
theorem C8_apply_update_frame (t : Models.Task) (u : Models.TaskUpdate) :
    (((u.task_name = none ∨ u.task_name = some t.task_name) ∧
      (u.enabled = none ∨ u.enabled = some t.enabled) ∧
      (u.keyword = none ∨ u.keyword = some t.keyword) ∧
      (u.description = none ∨ u.description = some t.description) ∧
      (u.max_pages = none ∨ u.max_pages = some t.max_pages) ∧
      (u.personal_only = none ∨ u.personal_only = some t.personal_only) ∧
      (u.min_price = none ∨ u.min_price = some t.min_price) ∧
      (u.max_price = none ∨ u.max_price = some t.max_price) ∧
      (u.cron = none ∨ u.cron = some t.cron) ∧
      (u.ai_prompt_base_file = none ∨
        u.ai_prompt_base_file = some t.ai_prompt_base_file) ∧
      (u.ai_prompt_criteria_file = none ∨
        u.ai_prompt_criteria_file = some t.ai_prompt_criteria_file) ∧
      (u.account_state_file = none ∨
        u.account_state_file = some t.account_state_file) ∧
      (u.free_shipping = none ∨ u.free_shipping = some t.free_shipping) ∧
      (u.new_publish_option = none ∨
        u.new_publish_option = some t.new_publish_option) ∧
      (u.region = none ∨ u.region = some t.region) ∧
      (u.decision_mode = none ∨ u.decision_mode = some t.decision_mode) ∧
      (u.keyword_rule_groups = none ∨
        u.keyword_rule_groups = some t.keyword_rule_groups) ∧
      (u.is_running = none ∨ u.is_running = some t.is_running)) →
      t.apply_update u = t) ∧
    ((t.apply_update u).id = t.id) ∧
    ((t.apply_update u).task_name = u.task_name.getD t.task_name) ∧
    ((t.apply_update u).enabled = u.enabled.getD t.enabled) ∧
    ((t.apply_update u).keyword = u.keyword.getD t.keyword) ∧
    ((t.apply_update u).description = u.description.getD t.description) ∧
    ((t.apply_update u).max_pages = u.max_pages.getD t.max_pages) ∧
    ((t.apply_update u).personal_only = u.personal_only.getD t.personal_only) ∧
    ((t.apply_update u).min_price = u.min_price.getD t.min_price) ∧
    ((t.apply_update u).max_price = u.max_price.getD t.max_price) ∧
    ((t.apply_update u).cron = u.cron.getD t.cron) ∧
    ((t.apply_update u).ai_prompt_base_file =
      u.ai_prompt_base_file.getD t.ai_prompt_base_file) ∧
    ((t.apply_update u).ai_prompt_criteria_file =
      u.ai_prompt_criteria_file.getD t.ai_prompt_criteria_file) ∧
    ((t.apply_update u).account_state_file =
      u.account_state_file.getD t.account_state_file) ∧
    ((t.apply_update u).free_shipping = u.free_shipping.getD t.free_shipping) ∧
    ((t.apply_update u).new_publish_option =
      u.new_publish_option.getD t.new_publish_option) ∧
    ((t.apply_update u).region = u.region.getD t.region) ∧
    ((t.apply_update u).decision_mode = u.decision_mode.getD t.decision_mode) ∧
    ((t.apply_update u).keyword_rule_groups =
      u.keyword_rule_groups.getD t.keyword_rule_groups) ∧
    ((t.apply_update u).is_running = u.is_running.getD t.is_running) := by
  refine ⟨?_, ?_⟩
  case refine_2 => and_intros <;> rfl
  intro h
  obtain ⟨h1, h2, h3, h4, h5, h6, h7, h8, h9, h10, h11, h12, h13, h14, h15,
    h16, h17, h18⟩ := h
  unfold Models.Task.apply_update
  rw [getD_eq_self _ _ h1, getD_eq_self _ _ h2, getD_eq_self _ _ h3,
    getD_eq_self _ _ h4, getD_eq_self _ _ h5, getD_eq_self _ _ h6,
    getD_eq_self _ _ h7, getD_eq_self _ _ h8, getD_eq_self _ _ h9,
    getD_eq_self _ _ h10, getD_eq_self _ _ h11, getD_eq_self _ _ h12,
    getD_eq_self _ _ h13, getD_eq_self _ _ h14, getD_eq_self _ _ h15,
    getD_eq_self _ _ h16, getD_eq_self _ _ h17, getD_eq_self _ _ h18]

theorem C8_apply_update_frame_witness :
    Models.Task.apply_update Models.sampleValidAITask
      { Models.TaskUpdate.unset with enabled := some true } =
      Models.sampleValidAITask :=
  by
  refine (C8_apply_update_frame Models.sampleValidAITask
    { Models.TaskUpdate.unset with enabled := some true }).1 ?_
  and_intros <;> first
  | exact Or.inl rfl
  | exact Or.inr rfl

/-! ## `build_search_text` theorems -/

/-- C7: under the documented record shape (both sub-records mappings when
present), `build_search_text` succeeds and its output is entirely
lower-case, has no leading/trailing whitespace and no whitespace run, and
contains the normalized product title as a contiguous substring whenever
the product-info sub-record carries a (string) title. -/
theorem C7_build_search_text_shape (record pes ses : List (Str × PyVal))
    (hp : dictGetD record (sl "商品信息") (.vdict []) = .vdict pes)
    (hs : dictGetD record (sl "卖家信息") (.vdict []) = .vdict ses) :
    ∃ out, build_search_text record = some out ∧
      (∀ ch ∈ out, ch.toLower = ch) ∧ IsCollapsed out ∧
      (∀ t : Str, dictGetD pes (sl "商品标题") .vnone = .vstr t →
        normalize_text t <:+: out) := by
  unfold build_search_text
  rw [hp, hs]
  refine ⟨_, rfl, normalize_text_lower _, normalize_text_collapsed _, ?_⟩
  intro t ht
  rw [ht]
  by_cases hstrip : strip t = []
  · have ht0 : normalize_text t = [] := by
      rw [← normalize_text_strip, hstrip]
      rfl
    rw [ht0]
    exact ⟨[], _, rfl⟩
  · have hc1 : collect_text_fragments (.vstr t) [] = [strip t] := by
      simp [collect_text_fragments, hstrip]
    rw [hc1]
    obtain ⟨ext1, he1⟩ := collect_text_fragments_ext (.vdict pes) [strip t]
    rw [he1]
    obtain ⟨ext2, he2⟩ := collect_text_fragments_ext (.vdict ses) ([strip t] ++ ext1)
    rw [he2]
    have hshape : ([strip t] ++ ext1) ++ ext2 = strip t :: (ext1 ++ ext2) := by
      simp
    rw [hshape]
    have h := normalize_text_head_fragment (strip t) (ext1 ++ ext2)
    rwa [normalize_text_strip] at h

theorem C7_build_search_text_shape_witness :
    ∃ out,
      build_search_text
        [(sl "商品信息", .vdict [(sl "商品标题", .vstr (sl "Sony A7M4 相机"))]),
         (sl "卖家信息", .vdict [(sl "卖家昵称", .vstr (sl "器材店"))])] = some out ∧
      (∀ ch ∈ out, ch.toLower = ch) ∧ IsCollapsed out ∧
      (∀ t : Str,
        dictGetD [(sl "商品标题", PyVal.vstr (sl "Sony A7M4 相机"))]
          (sl "商品标题") .vnone = .vstr t →
        normalize_text t <:+: out) :=
  C7_build_search_text_shape
    [(sl "商品信息", .vdict [(sl "商品标题", .vstr (sl "Sony A7M4 相机"))]),
     (sl "卖家信息", .vdict [(sl "卖家昵称", .vstr (sl "器材店"))])]
    [(sl "商品标题", .vstr (sl "Sony A7M4 相机"))]
    [(sl "卖家昵称", .vstr (sl "器材店"))]
    rfl rfl

/-- C10: `build_search_text` returns a text for every record whose two
special keys are absent or bound to mappings, and the mapping precondition
on the product-info key is necessary: binding it to a string makes the
Python call raise (modelled as `none`). -/
theorem C10_build_search_text_totality :
    (∀ record : List (Str × PyVal),
      (∃ pes, dictGetD record (sl "商品信息") (.vdict []) = .vdict pes) →
      (∃ ses, dictGetD record (sl "卖家信息") (.vdict []) = .vdict ses) →
      ∃ out, build_search_text record = some out) ∧
    build_search_text [(sl "商品信息", .vstr (sl "oops"))] = none := by
  constructor
  · rintro record ⟨pes, hp⟩ -
    unfold build_search_text
    rw [hp]
    exact ⟨_, rfl⟩
  · rfl

theorem C10_build_search_text_totality_witness :
    ∃ out,
      build_search_text
        [(sl "商品信息", .vdict [(sl "商品标题", .vstr (sl "Sony A7M4"))])] =
        some out :=
  C10_build_search_text_totality.1
    [(sl "商品信息", .vdict [(sl "商品标题", .vstr (sl "Sony A7M4"))])]
    ⟨[(sl "商品标题", .vstr (sl "Sony A7M4"))], rfl⟩ ⟨[], rfl⟩
